import Mathlib

/-!
Verification of the extraction-and-reconciliation core of the
reimbursement-audit tool (`src/tools/gmail_tool/source/gmail_tools.py`).

The Python source is shallowly embedded below: dictionaries become
structures with `Option` fields (a missing key and a stored `None` both
become `none`, matching the `dict.get` / `isinstance` guards of the
source), Python `int` becomes `Int`, and the two regular expressions of
`_parse_amounts_from_text` become explicit backtracking scanners over
`List Char` with the exact match/backtrack order of the CPython `re`
engine on those patterns.
-/

namespace Reimbursely

/-! ## Character classes used by the two regex patterns -/

/-- `\d` of the pattern (ASCII digits, the only digits in scope). -/
def isDigitC (c : Char) : Bool := c.isDigit

/-- The separator class `[.,]`. -/
def isSep (c : Char) : Bool := c = '.' || c = ','

/-- `\w` for the `\b` word-boundary checks of the fallback pattern. -/
def isWordChar (c : Char) : Bool := c.isAlphanum || c = '_'

/-! ## `_to_int` (inner helper of `_parse_amounts_from_text`) -/

/-- Python `s.strip()` (whitespace at both ends). -/
def stripWs (l : List Char) : List Char :=
  ((l.dropWhile Char.isWhitespace).reverse.dropWhile Char.isWhitespace).reverse

/-- Python `s.split(".")` on a character list: `"" → [""]`, separators
produce empty segments exactly as in Python. -/
def splitOnDot : List Char → List (List Char)
  | [] => [[]]
  | c :: cs =>
    let r := splitOnDot cs
    if c = '.' then [] :: r
    else
      match r with
      | h :: t => (c :: h) :: t
      | [] => [[c]]

/-- Value of a digit string, as Python `int` on an all-digit string. -/
def digitsToNat (l : List Char) : Nat :=
  l.foldl (fun a c => a * 10 + (c.toNat - 48)) 0

/-- Python `int(s)` under try/except on the strings reachable here:
succeeds exactly on a non-empty all-digit string. -/
def parseIntAllDigits (l : List Char) : Option Int :=
  if !l.isEmpty && l.all Char.isDigit then some ((digitsToNat l : Nat) : Int) else none

/-- `_to_int` of the source: comma→dot, drop a 2-digit final dot-segment
as decimals, strip dots, parse. -/
def _to_int (num_str : List Char) : Option Int :=
  let s0 := (stripWs num_str).map (fun c => if c = ',' then '.' else c)
  let s1 :=
    if s0.contains '.' then
      let parts := splitOnDot s0
      if (parts.getLastD []).length = 2 then parts.dropLast.flatten else parts.flatten
    else s0
  let s2 := s1.filter (fun c => c ≠ '.')
  parseIntAllDigits s2

/-! ## Primary pass: `(?:IDR|Rp)[^\d]*([0-9\.,]+)` with IGNORECASE

`re.findall` scans left to right; at each position the engine first
tries the alternative `IDR`, then `Rp` (case-insensitively); then
`[^\d]*` consumes greedily and backtracks one character at a time until
`([0-9\.,]+)` can match at least one character. -/

/-- Case-insensitive marker match: consumes `IDR` or `Rp` at the head. -/
def stripMarker : List Char → Option (List Char)
  | c1 :: c2 :: c3 :: rest =>
    if (c1 = 'I' || c1 = 'i') && (c2 = 'D' || c2 = 'd') && (c3 = 'R' || c3 = 'r') then
      some rest
    else if (c1 = 'R' || c1 = 'r') && (c2 = 'p' || c2 = 'P') then
      some (c3 :: rest)
    else none
  | c1 :: c2 :: [] =>
    if (c1 = 'R' || c1 = 'r') && (c2 = 'p' || c2 = 'P') then some []
    else none
  | _ => none

/-- Position after the last `[.,]` of a list, with that separator:
the backtrack target of `[^\d]*` when no digit follows the marker
(the group then matches exactly that one separator character). -/
def lastSepSplit : List Char → Option (Char × List Char)
  | [] => none
  | c :: cs =>
    match lastSepSplit cs with
    | some p => some p
    | none => if isSep c then some (c, cs) else none

/-- One attempt of the currency pattern at the head of `cs`:
returns the captured group and the remainder after the whole match. -/
def tryMatchCurrency (cs : List Char) : Option (List Char × List Char) :=
  match stripMarker cs with
  | none => none
  | some t =>
    let after := t.dropWhile (fun c => !isDigitC c)
    if after.isEmpty then
      -- `[^\d]*` consumed everything; backtracking succeeds at the last
      -- separator (a `[0-9.,]` character), capturing just it.
      match lastSepSplit (t.takeWhile (fun c => !isDigitC c)) with
      | some (sep, rest) => some ([sep], rest)
      | none => none
    else
      let grp := after.takeWhile (fun c => isDigitC c || isSep c)
      let rest := after.dropWhile (fun c => isDigitC c || isSep c)
      some (grp, rest)

/-- `re.findall` of the currency pattern: on failure the scan advances by
one character; on success it resumes after the match.  `fuel` bounds the
recursion; every step consumes at least one character, so any fuel of at
least the text length is exact. -/
def scanCurrency : Nat → List Char → List (List Char)
  | 0, _ => []
  | _, [] => []
  | fuel + 1, c :: cs =>
    match tryMatchCurrency (c :: cs) with
    | some (grp, rest) => grp :: scanCurrency fuel rest
    | none => scanCurrency fuel cs

/-! ## Fallback pass: `\b(\d{1,3}(?:[.,]\d{3})+)\b` -/

/-- Greedily collect `[.,]\d{3}` groups. -/
def grabGroups : List Char → (List (List Char) × List Char)
  | s :: d1 :: d2 :: d3 :: rest =>
    if isSep s && isDigitC d1 && isDigitC d2 && isDigitC d3 then
      let p := grabGroups rest
      ([s, d1, d2, d3] :: p.1, p.2)
    else ([], s :: d1 :: d2 :: d3 :: rest)
  | l => ([], l)

/-- Trailing `\b` after a digit: next char absent or a non-word char. -/
def boundaryAfter : List Char → Bool
  | [] => true
  | c :: _ => !isWordChar c

/-- Backtracking of the greedy `(?:[.,]\d{3})+` over the reversed group
list (most recent group first): drop the most recent group until the
trailing `\b` holds; at least one group must remain. -/
def pickGroupsRev : List (List Char) → List Char → Option (List Char × List Char)
  | [], _ => none
  | g :: gs, r =>
    if boundaryAfter r then some ((g :: gs).reverse.flatten, r)
    else pickGroupsRev gs (g ++ r)

def pickGroups (gs : List (List Char)) (r : List Char) : Option (List Char × List Char) :=
  pickGroupsRev gs.reverse r

/-- One attempt of the fallback pattern at the head of `cs`.  `prevWord`
says whether the character before `cs` is a word character (for `\b`).
`\d{1,3}` backtracking to fewer than the full digit run always fails
(the next character is then a digit, never `[.,]`), so only a run of
1–3 digits can start a match. -/
def tryGeneric (prevWord : Bool) (cs : List Char) : Option (List Char × List Char) :=
  if prevWord then none
  else
    let ds := cs.takeWhile isDigitC
    let rest1 := cs.dropWhile isDigitC
    if ds.length = 0 || 3 < ds.length then none
    else
      let p := grabGroups rest1
      match pickGroups p.1 p.2 with
      | some (body, rest) => some (ds ++ body, rest)
      | none => none

/-- `re.findall` of the fallback pattern (same scan discipline as
`scanCurrency`; a match always ends in a digit, a word character). -/
def scanGeneric : Nat → Bool → List Char → List (List Char)
  | 0, _, _ => []
  | _, _, [] => []
  | fuel + 1, prevWord, c :: cs =>
    match tryGeneric prevWord (c :: cs) with
    | some (grp, rest) => grp :: scanGeneric fuel true rest
    | none => scanGeneric fuel (isWordChar c) cs

/-- Fallback conversion: `m.replace(".", "").replace(",", "")` then
`int(...)` under try/except. -/
def fallbackToInt (l : List Char) : Option Int :=
  parseIntAllDigits (l.filter (fun c => c ≠ '.' && c ≠ ','))

/-! ## `sorted(set(amounts))` -/

/-- Insert into a strictly ascending list, dropping duplicates. -/
def insertUnique (a : Int) : List Int → List Int
  | [] => [a]
  | b :: bs =>
    if a < b then a :: b :: bs
    else if a = b then b :: bs
    else b :: insertUnique a bs

/-- `sorted(set(l))`: the strictly ascending enumeration of `l`'s
elements. -/
def uniqueSorted (l : List Int) : List Int := l.foldr insertUnique []

/-! ## `_parse_amounts_from_text` -/

def _parse_amounts_from_text (text : String) : List Int :=
  if text = "" then []
  else
    let cleaned := text.data.map (fun c => if c = '\n' then ' ' else c)
    let amounts := (scanCurrency (cleaned.length + 1) cleaned).filterMap _to_int
    let amounts2 :=
      if amounts.isEmpty then
        (scanGeneric (cleaned.length + 1) false cleaned).filterMap fallbackToInt
      else amounts
    uniqueSorted amounts2

/-! ## Data model for `_reconcile_form_and_receipts`

A receipt dict as the reconciliation sees it: `r.get("selected_amount")`
is `none` both for a missing key (error receipts) and for a stored
`None`, matching the `isinstance(..., int)` guard. -/

structure ReceiptRec where
  filename : Option String
  selected_amount : Option Int
deriving DecidableEq, Repr

structure FormItem where
  description : Option String
  deskripsi : Option String
  subtotal : Option Int
deriving DecidableEq, Repr

structure FormData where
  items : List FormItem
  total : Option Int
deriving DecidableEq, Repr

/-- An entry of `usable_receipts`. -/
structure UsableReceipt where
  idx : Nat
  amount : Int
  filename : Option String
deriving DecidableEq, Repr

structure ItemResult where
  description : Option String
  subtotal : Option Int
  status : String
  receipt_filename : Option String
deriving DecidableEq, Repr

structure ReconciliationResult where
  overall_status : String
  items : List ItemResult
  unmatched_receipts : List ReceiptRec
  form_total : Option Int
  sum_receipt_amounts : Int
  notes : List String
deriving DecidableEq, Repr

/-- The comprehension
`[{idx, amount, filename} for i, r in enumerate(receipts) if isinstance(r.get("selected_amount"), int)]`,
with the running `enumerate` counter made explicit. -/
def usableFrom (n : Nat) : List ReceiptRec → List UsableReceipt
  | [] => []
  | r :: rs =>
    match r.selected_amount with
    | some a => ⟨n, a, r.filename⟩ :: usableFrom (n + 1) rs
    | none => usableFrom (n + 1) rs

def usableReceipts (receipts : List ReceiptRec) : List UsableReceipt :=
  usableFrom 0 receipts

/-- Python `a or b` on strings: `None` and `""` both fall through. -/
def pyOrStr (a b : Option String) : Option String :=
  match a with
  | some s => if s = "" then b else some s
  | none => b

/-- The inner receipt scan of the per-item loop: first receipt of the
pool that is not in `used_flags` and whose amount equals the target. -/
def findMatch (used : List Nat) (target : Int) : List UsableReceipt → Option UsableReceipt
  | [] => none
  | r :: rs =>
    if used.contains r.idx then findMatch used target rs
    else if r.amount = target then some r
    else findMatch used target rs

/-- The `for item in items` loop of `_reconcile_form_and_receipts`,
threading `used_flags` (the list of indices set to `True`).  Each trace
entry keeps the loop's `matched_idx` variable next to the appended
result dict. -/
def processItems (pool : List UsableReceipt) :
    List FormItem → List Nat → List (Option Nat × ItemResult) × List Nat
  | [], used => ([], used)
  | item :: rest, used =>
    let target := item.subtotal
    let m :=
      match target with
      | some t => findMatch used t pool
      | none => none
    match m with
    | some r =>
      let p := processItems pool rest (used ++ [r.idx])
      ((some r.idx, ⟨pyOrStr item.description item.deskripsi, target, "MATCH", r.filename⟩) :: p.1,
       p.2)
    | none =>
      let p := processItems pool rest used
      ((none, ⟨pyOrStr item.description item.deskripsi, target, "MISSING_RECEIPT", none⟩) :: p.1,
       p.2)

/-- Python `x or 0` on an `int`. -/
def pyOrZero (a : Int) : Int := if a = 0 then 0 else a

/-- `sum(r.get("selected_amount") or 0 for r in receipts if isinstance(r.get("selected_amount"), int))`. -/
def sumReceipts (receipts : List ReceiptRec) : Int :=
  (receipts.filterMap (fun r => r.selected_amount)).foldl (fun acc a => acc + pyOrZero a) 0

def matchedTrace (form_data : FormData) (receipts : List ReceiptRec) :
    List (Option Nat × ItemResult) :=
  (processItems (usableReceipts receipts) form_data.items []).1

/-- The indices marked used over the whole run (`used_flags` final state,
in the order they were set). -/
def matchedIdxs (form_data : FormData) (receipts : List ReceiptRec) : List Nat :=
  (processItems (usableReceipts receipts) form_data.items []).2

def _reconcile_form_and_receipts (form_data : FormData) (receipts : List ReceiptRec) :
    ReconciliationResult :=
  let pool := usableReceipts receipts
  let run := processItems pool form_data.items []
  let per_item_results := run.1.map Prod.snd
  let finalUsed := run.2
  -- `[receipts[idx] for idx, used in used_flags.items() if not used]`:
  -- the dict iterates in insertion order, i.e. the pool order.
  let unmatched :=
    (pool.filter (fun r => !finalUsed.contains r.idx)).map
      (fun r => (receipts.get? r.idx).getD ⟨none, none⟩)
  let form_total := form_data.total
  let sum_receipts := sumReceipts receipts
  let totalMismatch :=
    match form_total with
    | some t => t != sum_receipts
    | none => false
  let anyNonMatch := per_item_results.any (fun i => i.status != "MATCH")
  let overall := if totalMismatch || anyNonMatch then "MISMATCH" else "OK"
  let notes :=
    (match form_total with
     | some t =>
       if t != sum_receipts then
         ["Form total (" ++ toString t ++ ") does not match sum of receipt amounts ("
           ++ toString sum_receipts ++ ")."]
       else []
     | none => []) ++
    (if anyNonMatch then ["Some items do not have a matching payment receipt."] else []) ++
    (if !unmatched.isEmpty then ["Some payment receipts are unused / do not match any item."] else [])
  ⟨overall, per_item_results, unmatched, form_total, sum_receipts, notes⟩

/-! ## Receipt-result construction (loop body of `analyze_reimburse_email`) -/

/-- Outcome of the two fallible collaborator calls for one receipt
attachment: the download `HttpError` branch, the OCR `Exception`
branch, or the OCR text. -/
inductive ReceiptFetch where
  | downloadError (status : Int) (reason : String)
  | ocrError (msg : String)
  | ocrText (text : String)
deriving DecidableEq, Repr

/-- The receipt dict appended by `analyze_reimburse_email`: an outer
`none` is an absent key, `selected_amount = some none` is a stored
Python `None`. -/
structure ReceiptResult where
  filename : Option String
  error : Option String
  status : Option Int
  reason : Option String
  candidate_amounts : Option (List Int)
  selected_amount : Option (Option Int)
  ocr_text_preview : Option String
deriving DecidableEq, Repr

/-- Python `s[:n]` (slicing by characters). -/
def takePy (s : String) (n : Nat) : String := ⟨s.data.take n⟩

/-- `(ocr_text[:300] + "…") if ocr_text else ""`. -/
def previewOf (ocr_text : String) : String :=
  if ocr_text = "" then "" else takePy ocr_text 300 ++ "…"

/-- Body of the `for att in receipt_atts` loop of
`analyze_reimburse_email` for one attachment. -/
def build_receipt (filename : Option String) (fetch : ReceiptFetch) : ReceiptResult :=
  match fetch with
  | .downloadError st rsn =>
    ⟨filename, some "Failed to download payment receipt attachment.", some st, some rsn,
     none, none, none⟩
  | .ocrError msg =>
    ⟨filename, some ("OCR failed: " ++ msg), none, none, none, none, none⟩
  | .ocrText ocr_text =>
    let amounts := _parse_amounts_from_text ocr_text
    -- `selected = amounts[-1] if amounts else None`
    let selected := amounts.getLast?
    ⟨filename, none, none, none, some amounts, some selected, some (previewOf ocr_text)⟩

/-! ## `_select_form_pdf_attachment` -/

structure AttachmentMeta where
  filename : Option String
  mimeType : Option String
deriving DecidableEq, Repr

/-- Python `needle in hay` on strings. -/
def isSubstrOf (needle : List Char) : List Char → Bool
  | [] => needle.isEmpty
  | c :: t => needle.isPrefixOf (c :: t) || isSubstrOf needle t

def lowerStr (s : String) : String := ⟨s.data.map Char.toLower⟩

/-- The inner `score` function of `_select_form_pdf_attachment`. -/
def score (att : AttachmentMeta) : Int :=
  let name := (lowerStr (att.filename.getD "")).data
  let s0 : Int := 0
  let s1 :=
    if ["reimburse", "reimbursement", "form", "persetujuan", "approval"].any
        (fun k => isSubstrOf k.data name) then s0 + 10 else s0
  if ["receipt", "bukti", "invoice", "struk"].any (fun k => isSubstrOf k.data name) then s1 - 5
  else s1

/-- The `pdf_atts` filter: MIME contains `pdf` or filename ends `.pdf`. -/
def pdfFilter (attachments : List AttachmentMeta) : List AttachmentMeta :=
  attachments.filter (fun att =>
    isSubstrOf "pdf".data (lowerStr (att.mimeType.getD "")).data
      || ".pdf".data.isSuffixOf (lowerStr (att.filename.getD "")).data)

/-- Stable insertion for a descending sort: a newly inserted element
(earlier in the original list) goes before every element it ties with,
as Python's stable `list.sort(key=score, reverse=True)` keeps earlier
elements first among equals. -/
def insertDescStable (f : AttachmentMeta → Int) (a : AttachmentMeta) :
    List AttachmentMeta → List AttachmentMeta
  | [] => [a]
  | b :: bs => if f b ≤ f a then a :: b :: bs else b :: insertDescStable f a bs

/-- `pdf_atts.sort(key=score, reverse=True)` as a stable descending sort. -/
def sortDescStable (f : AttachmentMeta → Int) (l : List AttachmentMeta) : List AttachmentMeta :=
  l.foldr (insertDescStable f) []

def _select_form_pdf_attachment (attachments : List AttachmentMeta) : Option AttachmentMeta :=
  let pdf_atts := pdfFilter attachments
  match sortDescStable score pdf_atts with
  | [] => none
  | a :: _ => some a

/-! # Lemmas about `sorted(set(...))` -/

theorem mem_insertUnique {x a : Int} : ∀ {l : List Int}, x ∈ insertUnique a l ↔ x = a ∨ x ∈ l
  | [] => by simp [insertUnique]
  | b :: bs => by
    unfold insertUnique
    split_ifs with h1 h2
    · simp
    · subst h2; simp
    · simp only [List.mem_cons, mem_insertUnique (l := bs)]
      tauto

theorem sorted_insertUnique (a : Int) :
    ∀ (l : List Int), l.Sorted (· < ·) → (insertUnique a l).Sorted (· < ·)
  | [], _ => by simp [insertUnique]
  | b :: bs, h => by
    rw [List.sorted_cons] at h
    unfold insertUnique
    split_ifs with h1 h2
    · rw [List.sorted_cons]
      refine ⟨?_, List.sorted_cons.mpr h⟩
      intro x hx
      rcases List.mem_cons.mp hx with rfl | hx
      · exact h1
      · exact h1.trans (h.1 x hx)
    · exact List.sorted_cons.mpr h
    · rw [List.sorted_cons]
      refine ⟨?_, sorted_insertUnique a bs h.2⟩
      intro x hx
      rcases mem_insertUnique.mp hx with rfl | hx
      · omega
      · exact h.1 x hx

theorem uniqueSorted_sorted : ∀ (l : List Int), (uniqueSorted l).Sorted (· < ·)
  | [] => by simp [uniqueSorted]
  | a :: l => by
    have := uniqueSorted_sorted l
    unfold uniqueSorted at this ⊢
    exact sorted_insertUnique a _ this

/-- Both branches of `_parse_amounts_from_text` end in `uniqueSorted`. -/
theorem parse_amounts_sorted (s : String) :
    (_parse_amounts_from_text s).Sorted (· < ·) := by
  unfold _parse_amounts_from_text
  split
  · simp
  · exact uniqueSorted_sorted _

/-- Claim C6: for every input string the currency token parser returns a
strictly ascending, duplicate-free list, and on the empty string it
returns the empty list. -/
theorem C6_parse_amounts_sorted_nodup :
    (∀ s : String,
      (_parse_amounts_from_text s).Sorted (· < ·) ∧ (_parse_amounts_from_text s).Nodup)
    ∧ _parse_amounts_from_text "" = [] := by
  refine ⟨fun s => ⟨parse_amounts_sorted s, (parse_amounts_sorted s).nodup⟩, rfl⟩

/-- Claim C7: the three specified example inputs of the currency token
parser produce exactly the specified outputs (`Rp 300.000` → 300000;
`IDR 1,250,000.00` → 1250000 with the 2-digit tail truncated;
`Total: 45.000 and 1.250.000` → both amounts via the fallback pass). -/
theorem C7_parse_amounts_examples :
    _parse_amounts_from_text "Rp 300.000" = [300000]
    ∧ _parse_amounts_from_text "IDR 1,250,000.00" = [1250000]
    ∧ _parse_amounts_from_text "Total: 45.000 and 1.250.000" = [45000, 1250000] := by
  refine ⟨by decide, by decide, by decide⟩

/-! # C2: contents of `unmatched_receipts` -/

/-- Claim C2 counterexample: a receipt without an integer
`selected_amount` is never marked used, yet `unmatched_receipts` is
empty — the comprehension iterates `used_flags`, which only indexes the
usable pool, so excluded receipts are dropped instead of reported. -/
theorem C2_cex_error_receipt_dropped :
    (_reconcile_form_and_receipts ⟨[], none⟩ [⟨some "bukti.jpg", none⟩]).unmatched_receipts = []
    ∧ ([] : List ReceiptRec) ≠ [⟨some "bukti.jpg", none⟩] := by
  exact ⟨rfl, by decide⟩

/-! # C9: the OCR text preview -/

/-- Claim C9 counterexample: a non-empty OCR text of fewer than 300
characters still gets the ellipsis marker, because the source appends
`…` whenever the text is non-empty, not only when it was truncated. -/
theorem C9_cex_short_text_gets_ellipsis :
    (build_receipt (some "r.jpg") (.ocrText "abc")).ocr_text_preview = some "abc…"
    ∧ ("abc…" : String) ≠ "abc" := by
  exact ⟨rfl, by decide⟩

/-- Claim C9 amended: `ocr_text_preview` is the empty string when the
OCR text is empty; otherwise it is the first 300 characters followed by
the ellipsis marker in every case, even when nothing was truncated. -/
theorem C9_amended_preview_always_ellipsis (filename : Option String) (text : String) :
    (build_receipt filename (.ocrText text)).ocr_text_preview = some (previewOf text)
    ∧ (text = "" → previewOf text = "")
    ∧ (text ≠ "" →
        previewOf text = takePy text 300 ++ "…"
        ∧ (text.length ≤ 300 → previewOf text = text ++ "…")) := by
  refine ⟨rfl, fun h => by unfold previewOf; rw [if_pos h],
    fun h => ⟨by unfold previewOf; rw [if_neg h], fun hlen => ?_⟩⟩
  have htake : takePy text 300 = text := by
    unfold takePy
    have hd : text.data.take 300 = text.data := List.take_of_length_le hlen
    rw [hd]
  unfold previewOf
  rw [if_neg h, htake]

/-- Witness for the amended C9 at a concrete short text. -/
theorem C9_witness :
    (build_receipt (some "f") (.ocrText "ab")).ocr_text_preview = some (previewOf "ab")
    ∧ previewOf "ab" = "ab" ++ "…" := by
  refine ⟨(C9_amended_preview_always_ellipsis (some "f") "ab").1, ?_⟩
  exact ((C9_amended_preview_always_ellipsis (some "f") "ab").2.2 (by decide)).2 (by decide)

/-! # Projection lemmas for `_reconcile_form_and_receipts` -/

theorem reconcile_overall_status (fd : FormData) (rs : List ReceiptRec) :
    (_reconcile_form_and_receipts fd rs).overall_status =
      if ((match fd.total with
           | some t => t != sumReceipts rs
           | none => false)
          || ((processItems (usableReceipts rs) fd.items []).1.map Prod.snd).any
              (fun i => i.status != "MATCH")) then "MISMATCH" else "OK" := rfl

theorem reconcile_items (fd : FormData) (rs : List ReceiptRec) :
    (_reconcile_form_and_receipts fd rs).items =
      (processItems (usableReceipts rs) fd.items []).1.map Prod.snd := rfl

theorem reconcile_sum (fd : FormData) (rs : List ReceiptRec) :
    (_reconcile_form_and_receipts fd rs).sum_receipt_amounts = sumReceipts rs := rfl

theorem reconcile_form_total (fd : FormData) (rs : List ReceiptRec) :
    (_reconcile_form_and_receipts fd rs).form_total = fd.total := rfl

theorem reconcile_unmatched (fd : FormData) (rs : List ReceiptRec) :
    (_reconcile_form_and_receipts fd rs).unmatched_receipts =
      ((usableReceipts rs).filter (fun r => !(matchedIdxs fd rs).contains r.idx)).map
        (fun r => (rs.get? r.idx).getD ⟨none, none⟩) := rfl

/-! # C1: the overall status -/

theorem total_mismatch_true_iff (t? : Option Int) (s : Int) :
    (match t? with | some t => t != s | none => false) = true ↔ ∃ t, t? = some t ∧ t ≠ s := by
  cases t? <;> simp

theorem total_mismatch_false_iff (t? : Option Int) (s : Int) :
    (match t? with | some t => t != s | none => false) = false ↔ (t? = none ∨ t? = some s) := by
  cases t? <;> simp

theorem any_nonmatch_true_iff (L : List ItemResult) :
    L.any (fun i => i.status != "MATCH") = true ↔ ∃ it ∈ L, it.status ≠ "MATCH" := by
  simp [List.any_eq_true]

theorem any_nonmatch_false_iff (L : List ItemResult) :
    L.any (fun i => i.status != "MATCH") = false ↔ ∀ it ∈ L, it.status = "MATCH" := by
  simp [List.any_eq_false]

/-- Claim C1: `overall_status` is `OK` iff every per-item result has
status `MATCH` and the form total is absent or equals
`sum_receipt_amounts`; in every other case it is `MISMATCH`. -/
theorem C1_overall_status_ok_iff (form_data : FormData) (receipts : List ReceiptRec) :
    ((_reconcile_form_and_receipts form_data receipts).overall_status = "OK" ↔
      ((∀ it ∈ (_reconcile_form_and_receipts form_data receipts).items, it.status = "MATCH")
        ∧ (form_data.total = none
            ∨ form_data.total
                = some (_reconcile_form_and_receipts form_data receipts).sum_receipt_amounts)))
    ∧ ((_reconcile_form_and_receipts form_data receipts).overall_status = "OK"
        ∨ (_reconcile_form_and_receipts form_data receipts).overall_status = "MISMATCH") := by
  rw [reconcile_overall_status, reconcile_items, reconcile_sum]
  cases h1 : (match form_data.total with
              | some t => t != sumReceipts receipts
              | none => false) with
  | false =>
    cases h2 : ((processItems (usableReceipts receipts) form_data.items []).1.map Prod.snd).any
        (fun i => i.status != "MATCH") with
    | false =>
      refine ⟨⟨fun _ => ⟨(any_nonmatch_false_iff _).mp h2, (total_mismatch_false_iff _ _).mp h1⟩,
        fun _ => rfl⟩, Or.inl rfl⟩
    | true =>
      refine ⟨⟨fun h => absurd h (by decide), fun h => ?_⟩, Or.inr rfl⟩
      obtain ⟨it, hit, hne⟩ := (any_nonmatch_true_iff _).mp h2
      exact absurd (h.1 it hit) hne
  | true =>
    refine ⟨⟨fun h => absurd (show ("MISMATCH" : String) = "OK" from h) (by decide),
      fun h => ?_⟩, Or.inr rfl⟩
    obtain ⟨t, ht, hne⟩ := (total_mismatch_true_iff _ _).mp h1
    rcases h.2 with h' | h'
    · rw [ht] at h'; exact Option.noConfusion h'
    · rw [ht] at h'; exact absurd (Option.some.inj h') hne

/-- Witness for C1 at a concrete form and receipt list. -/
theorem C1_witness :
    ((_reconcile_form_and_receipts ⟨[⟨some "taxi", none, some 300000⟩], some 300000⟩
        [⟨some "r1.jpg", some 300000⟩]).overall_status = "OK" ↔
      ((∀ it ∈ (_reconcile_form_and_receipts ⟨[⟨some "taxi", none, some 300000⟩], some 300000⟩
          [⟨some "r1.jpg", some 300000⟩]).items, it.status = "MATCH")
        ∧ ((⟨[⟨some "taxi", none, some 300000⟩], some 300000⟩ : FormData).total = none
            ∨ (⟨[⟨some "taxi", none, some 300000⟩], some 300000⟩ : FormData).total
                = some (_reconcile_form_and_receipts ⟨[⟨some "taxi", none, some 300000⟩],
                    some 300000⟩ [⟨some "r1.jpg", some 300000⟩]).sum_receipt_amounts)))
    ∧ ((_reconcile_form_and_receipts ⟨[⟨some "taxi", none, some 300000⟩], some 300000⟩
          [⟨some "r1.jpg", some 300000⟩]).overall_status = "OK"
        ∨ (_reconcile_form_and_receipts ⟨[⟨some "taxi", none, some 300000⟩], some 300000⟩
            [⟨some "r1.jpg", some 300000⟩]).overall_status = "MISMATCH") :=
  C1_overall_status_ok_iff ⟨[⟨some "taxi", none, some 300000⟩], some 300000⟩
    [⟨some "r1.jpg", some 300000⟩]

/-! # C4: `sum_receipt_amounts` -/

theorem pyOrZero_eq (a : Int) : pyOrZero a = a := by
  unfold pyOrZero; split <;> simp_all

theorem sumReceipts_eq (rs : List ReceiptRec) :
    sumReceipts rs = (rs.filterMap (fun r => r.selected_amount)).sum := by
  unfold sumReceipts
  simp only [pyOrZero_eq]
  rw [List.sum_eq_foldl]

/-- Claim C4: `sum_receipt_amounts` is the sum of `selected_amount` over
all input receipts that have one (matched or not), and does not depend
on the form (hence not on which receipts were matched to items). -/
theorem C4_sum_receipt_amounts (form_data : FormData) (receipts : List ReceiptRec) :
    ((_reconcile_form_and_receipts form_data receipts).sum_receipt_amounts
      = (receipts.filterMap (fun r => r.selected_amount)).sum)
    ∧ ∀ form_data' : FormData,
        (_reconcile_form_and_receipts form_data' receipts).sum_receipt_amounts
          = (_reconcile_form_and_receipts form_data receipts).sum_receipt_amounts := by
  exact ⟨by rw [reconcile_sum, sumReceipts_eq], fun fd' => by rw [reconcile_sum, reconcile_sum]⟩

/-! # Lemmas about the usable-receipt pool -/

theorem contains_true_iff (l : List Nat) (x : Nat) : l.contains x = true ↔ x ∈ l := by
  simp [List.contains]

theorem contains_false_iff (l : List Nat) (x : Nat) : l.contains x = false ↔ x ∉ l := by
  simp [List.contains]

theorem usableFrom_mem_get :
    ∀ (l : List ReceiptRec) (n : Nat) (r' : UsableReceipt), r' ∈ usableFrom n l →
      ∃ j x, r'.idx = n + j ∧ l.get? j = some x ∧ x.selected_amount = some r'.amount
        ∧ x.filename = r'.filename
  | [], n, r', h => by simp [usableFrom] at h
  | r :: rs, n, r', h => by
    unfold usableFrom at h
    cases hsel : r.selected_amount with
    | some a =>
      rw [hsel] at h
      rcases List.mem_cons.mp h with rfl | h'
      · exact ⟨0, r, by simp, rfl, by simp [hsel], rfl⟩
      · obtain ⟨j, x, hj, hx, hsel', hfn⟩ := usableFrom_mem_get rs (n + 1) r' h'
        exact ⟨j + 1, x, by omega, by simpa using hx, hsel', hfn⟩
    | none =>
      rw [hsel] at h
      obtain ⟨j, x, hj, hx, hsel', hfn⟩ := usableFrom_mem_get rs (n + 1) r' h
      exact ⟨j + 1, x, by omega, by simpa using hx, hsel', hfn⟩

theorem usableFrom_complete :
    ∀ (l : List ReceiptRec) (n j : Nat) (x : ReceiptRec) (a : Int),
      l.get? j = some x → x.selected_amount = some a →
      (⟨n + j, a, x.filename⟩ : UsableReceipt) ∈ usableFrom n l
  | [], _, j, x, a, h, _ => by simp at h
  | r :: rs, n, 0, x, a, hget, hsel => by
    have hrx : r = x := by simpa using hget
    subst hrx
    unfold usableFrom
    rw [hsel]
    simp
  | r :: rs, n, j + 1, x, a, hget, hsel => by
    have h' := usableFrom_complete rs (n + 1) j x a (by simpa using hget) hsel
    have heq : n + (j + 1) = (n + 1) + j := by omega
    unfold usableFrom
    rw [heq]
    cases hsel' : r.selected_amount with
    | some b => exact List.mem_cons.mpr (Or.inr h')
    | none => exact h'

theorem usableFrom_idx_ge (l : List ReceiptRec) (n : Nat) (r' : UsableReceipt)
    (h : r' ∈ usableFrom n l) : n ≤ r'.idx := by
  obtain ⟨j, x, hj, _⟩ := usableFrom_mem_get l n r' h
  omega

theorem usableFrom_sorted :
    ∀ (l : List ReceiptRec) (n : Nat), (usableFrom n l).Pairwise (fun a b => a.idx < b.idx)
  | [], n => by simp [usableFrom]
  | r :: rs, n => by
    unfold usableFrom
    cases hsel : r.selected_amount with
    | some a =>
      refine List.Pairwise.cons ?_ (usableFrom_sorted rs (n + 1))
      intro b hb
      have := usableFrom_idx_ge rs (n + 1) b hb
      simp only []
      omega
    | none => exact usableFrom_sorted rs (n + 1)

/-! # Lemmas about the per-item matching scan -/

theorem findMatch_some :
    ∀ (pool : List UsableReceipt) (used : List Nat) (t : Int) (r : UsableReceipt),
      findMatch used t pool = some r →
      r ∈ pool ∧ used.contains r.idx = false ∧ r.amount = t
  | [], _, _, _, h => by simp [findMatch] at h
  | p :: ps, used, t, r, h => by
    unfold findMatch at h
    split_ifs at h with hc ha
    · obtain ⟨hm, hu, ht⟩ := findMatch_some ps used t r h
      exact ⟨List.mem_cons_of_mem _ hm, hu, ht⟩
    · cases Option.some.inj h
      exact ⟨List.mem_cons_self _ _, by rwa [Bool.not_eq_true] at hc, ha⟩
    · obtain ⟨hm, hu, ht⟩ := findMatch_some ps used t r h
      exact ⟨List.mem_cons_of_mem _ hm, hu, ht⟩

theorem findMatch_first_fit :
    ∀ (pool : List UsableReceipt) (used : List Nat) (t : Int) (r : UsableReceipt),
      pool.Pairwise (fun a b => a.idx < b.idx) →
      findMatch used t pool = some r →
      ∀ x ∈ pool, x.idx < r.idx → (used.contains x.idx = true ∨ x.amount ≠ t)
  | [], _, _, _, _, h => by simp [findMatch] at h
  | p :: ps, used, t, r, hsort, h => by
    rw [List.pairwise_cons] at hsort
    unfold findMatch at h
    split_ifs at h with hc ha
    · intro x hx hlt
      rcases List.mem_cons.mp hx with rfl | hx'
      · exact Or.inl hc
      · exact findMatch_first_fit ps used t r hsort.2 h x hx' hlt
    · cases Option.some.inj h
      intro x hx hlt
      rcases List.mem_cons.mp hx with rfl | hx'
      · omega
      · exact absurd hlt (by have := hsort.1 x hx'; omega)
    · intro x hx hlt
      rcases List.mem_cons.mp hx with rfl | hx'
      · exact Or.inr ha
      · exact findMatch_first_fit ps used t r hsort.2 h x hx' hlt

/-! # Lemmas about the per-item loop -/

theorem processItems_used_eq (pool : List UsableReceipt) (items : List FormItem) :
    ∀ used, (processItems pool items used).2
      = used ++ (processItems pool items used).1.filterMap Prod.fst := by
  induction items with
  | nil => intro used; simp [processItems]
  | cons item rest ih =>
    intro used
    cases hsub : item.subtotal with
    | none => simp [processItems, hsub, ih used]
    | some t =>
      cases hm : findMatch used t pool with
      | none => simp [processItems, hsub, hm, ih used]
      | some r => simp [processItems, hsub, hm, ih (used ++ [r.idx])]

theorem processItems_nodup (pool : List UsableReceipt) (items : List FormItem) :
    ∀ used, used.Nodup → ((processItems pool items used).2).Nodup := by
  induction items with
  | nil => intro used h; simpa [processItems] using h
  | cons item rest ih =>
    intro used h
    cases hsub : item.subtotal with
    | none => simpa [processItems, hsub] using ih used h
    | some t =>
      cases hm : findMatch used t pool with
      | none => simpa [processItems, hsub, hm] using ih used h
      | some r =>
        have hnotin : r.idx ∉ used :=
          (contains_false_iff _ _).mp (findMatch_some pool used t r hm).2.1
        have hnd : (used ++ [r.idx]).Nodup := by
          simp [List.nodup_append, h, hnotin]
        simpa [processItems, hsub, hm] using ih (used ++ [r.idx]) hnd

theorem processItems_matched_mem (pool : List UsableReceipt) (items : List FormItem) :
    ∀ used i, i ∈ (processItems pool items used).1.filterMap Prod.fst →
      ∃ r ∈ pool, r.idx = i := by
  induction items with
  | nil => intro used i h; simp [processItems] at h
  | cons item rest ih =>
    intro used i h
    cases hsub : item.subtotal with
    | none =>
      simp only [processItems, hsub, List.filterMap_cons] at h
      exact ih used i h
    | some t =>
      cases hm : findMatch used t pool with
      | none =>
        simp only [processItems, hsub, hm, List.filterMap_cons] at h
        exact ih used i h
      | some r =>
        simp only [processItems, hsub, hm, List.filterMap_cons, List.mem_cons] at h
        rcases h with rfl | h'
        · exact ⟨r, (findMatch_some pool used t r hm).1, rfl⟩
        · exact ih (used ++ [r.idx]) i h'

/-! # C2 (amended): contents of `unmatched_receipts` -/

theorem unmatched_eq_enumFrom :
    ∀ (l : List ReceiptRec) (n : Nat) (used : List Nat) (full : List ReceiptRec),
      (∀ j, full.get? (n + j) = l.get? j) →
      ((usableFrom n l).filter (fun r => !used.contains r.idx)).map
          (fun r => (full.get? r.idx).getD ⟨none, none⟩)
        = ((l.enumFrom n).filter
            (fun p => p.2.selected_amount.isSome && !used.contains p.1)).map Prod.snd
  | [], n, used, full, _ => by simp [usableFrom]
  | r :: rs, n, used, full, h => by
    have hfull0 : full.get? n = some r := by simpa using h 0
    have hshift : ∀ j, full.get? ((n + 1) + j) = rs.get? j := by
      intro j
      have hj := h (j + 1)
      rw [show n + (j + 1) = (n + 1) + j by omega] at hj
      simpa using hj
    have ih := unmatched_eq_enumFrom rs (n + 1) used full hshift
    simp only [List.get?_eq_getElem?] at hfull0 ⊢
    simp only [List.contains, List.elem_eq_mem] at ih ⊢
    simp only [List.get?_eq_getElem?] at ih
    cases hsel : r.selected_amount with
    | some a =>
      by_cases hu : n ∈ used
      · simp [usableFrom, hsel, List.filter_cons, hu, ih]
      · simp [usableFrom, hsel, List.filter_cons, hu, hfull0, ih]
    | none => simp [usableFrom, hsel, List.filter_cons, ih]

/-- Claim C2 amended: `unmatched_receipts` lists, in original input
order, exactly the receipts that have an integer `selected_amount` and
were never marked used; receipts excluded from the matching pool for
lacking an integer amount are omitted, not reported. -/
theorem C2_amended_unmatched_receipts (form_data : FormData) (receipts : List ReceiptRec) :
    (_reconcile_form_and_receipts form_data receipts).unmatched_receipts
      = (receipts.enum.filter
          (fun p => p.2.selected_amount.isSome
            && !(matchedIdxs form_data receipts).contains p.1)).map Prod.snd := by
  rw [reconcile_unmatched]
  have h := unmatched_eq_enumFrom receipts 0 (matchedIdxs form_data receipts) receipts
      (fun j => by simp)
  simpa [List.enum, usableReceipts] using h

/-! # C3: matched receipts are pairwise distinct -/

/-- Claim C3: within one reconciliation the matched receipt indices (the
loop's `matched_idx` values) are pairwise distinct — a matched item
consumes exactly one receipt and no receipt is matched twice — and every
matched index denotes a position of the input receipt sequence. -/
theorem C3_distinct_matched_receipts (form_data : FormData) (receipts : List ReceiptRec) :
    ((matchedTrace form_data receipts).filterMap Prod.fst).Nodup
    ∧ ∀ i ∈ (matchedTrace form_data receipts).filterMap Prod.fst, i < receipts.length := by
  constructor
  · have h1 := processItems_nodup (usableReceipts receipts) form_data.items [] List.nodup_nil
    rw [processItems_used_eq] at h1
    simpa [matchedTrace] using h1
  · intro i hi
    obtain ⟨r, hr, rfl⟩ :=
      processItems_matched_mem (usableReceipts receipts) form_data.items [] i hi
    obtain ⟨j, x, hj, hx, _, _⟩ := usableFrom_mem_get receipts 0 r hr
    have hjlt : j < receipts.length := by
      cases hh : receipts.get? j with
      | none => rw [hh] at hx; exact Option.noConfusion hx
      | some y => exact List.get?_eq_some.mp hh |>.1
    omega

/-- Witness for C3 at a concrete run with one matched item. -/
theorem C3_witness :
    ((matchedTrace ⟨[⟨none, none, some 100⟩], none⟩ [⟨some "r", some 100⟩]).filterMap
        Prod.fst).Nodup
    ∧ (0 ∈ (matchedTrace ⟨[⟨none, none, some 100⟩], none⟩
          [⟨some "r", some 100⟩]).filterMap Prod.fst)
    ∧ (0 : Nat) < ([⟨some "r", some 100⟩] : List ReceiptRec).length :=
  ⟨(C3_distinct_matched_receipts ⟨[⟨none, none, some 100⟩], none⟩ [⟨some "r", some 100⟩]).1,
    by decide,
    (C3_distinct_matched_receipts ⟨[⟨none, none, some 100⟩], none⟩
      [⟨some "r", some 100⟩]).2 0 (by decide)⟩

/-! # C5: first-fit matching in original receipt order -/

/-- Claim C5: whenever the per-item scan over the pool built from the
input receipts (in any reachable `used_flags` state) matches a receipt
for an integer subtotal `t`, that receipt holds amount `t`, is unused,
and every earlier input receipt with an integer `selected_amount` equal
to `t` is already used — matching is first-fit in original receipt
order, so of two equal-amount eligible receipts the earlier is chosen. -/
theorem C5_first_fit_matching (receipts : List ReceiptRec) (used : List Nat) (t : Int)
    (r : UsableReceipt) (h : findMatch used t (usableReceipts receipts) = some r) :
    (∃ x, receipts.get? r.idx = some x ∧ x.selected_amount = some t
      ∧ x.filename = r.filename)
    ∧ used.contains r.idx = false
    ∧ ∀ j y, j < r.idx → receipts.get? j = some y → y.selected_amount = some t →
        used.contains j = true := by
  obtain ⟨hmem, hused, hamt⟩ := findMatch_some _ used t r h
  obtain ⟨j0, x, hj0, hx, hsel, hfn⟩ := usableFrom_mem_get receipts 0 r hmem
  have hj0' : r.idx = j0 := by omega
  refine ⟨⟨x, by rw [hj0']; exact hx, by rw [hsel, hamt], hfn⟩, hused, ?_⟩
  intro j y hlt hget hsel'
  have hin : (⟨0 + j, t, y.filename⟩ : UsableReceipt) ∈ usableFrom 0 receipts :=
    usableFrom_complete receipts 0 j y t hget hsel'
  have hff := findMatch_first_fit _ used t r (usableFrom_sorted receipts 0) h
      ⟨0 + j, t, y.filename⟩ hin (by simpa using hlt)
  rcases hff with hu | hne
  · simpa using hu
  · exact absurd rfl hne

/-- Witness for C5: two equal-amount receipts, the first one is chosen. -/
theorem C5_witness :
    (∃ x, ([⟨some "r1", some 100⟩, ⟨some "r2", some 100⟩] : List ReceiptRec).get? 0 = some x
      ∧ x.selected_amount = some 100 ∧ x.filename = some "r1")
    ∧ ([] : List Nat).contains 0 = false
    ∧ ∀ j y, j < 0 →
        ([⟨some "r1", some 100⟩, ⟨some "r2", some 100⟩] : List ReceiptRec).get? j = some y →
        y.selected_amount = some 100 → ([] : List Nat).contains j = true := by
  have h := C5_first_fit_matching [⟨some "r1", some 100⟩, ⟨some "r2", some 100⟩] [] 100
      ⟨0, 100, some "r1"⟩ (by decide)
  exact ⟨h.1, h.2.1, h.2.2⟩

/-! # C8: shape of a per-receipt result -/

theorem sorted_le_getLast :
    ∀ (l : List Int), l.Sorted (· < ·) → ∀ a ∈ l,
      ∃ m, l.getLast? = some m ∧ m ∈ l ∧ a ≤ m
  | [], _, a, ha => by simp at ha
  | [x], _, a, ha => by
    have : a = x := by simpa using ha
    exact ⟨x, rfl, by simp, by omega⟩
  | x :: y :: t, h, a, ha => by
    rw [List.sorted_cons] at h
    have hlast : (x :: y :: t).getLast? = (y :: t).getLast? := by
      rw [List.getLast?_cons_cons]
    rcases List.mem_cons.mp ha with rfl | ha'
    · obtain ⟨m, hm, hmem, hy⟩ := sorted_le_getLast (y :: t) h.2 y (List.mem_cons_self _ _)
      have hxy : a < y := h.1 y (List.mem_cons_self _ _)
      exact ⟨m, hlast ▸ hm, List.mem_cons_of_mem _ hmem, by omega⟩
    · obtain ⟨m, hm, hmem, hy⟩ := sorted_le_getLast (y :: t) h.2 a ha'
      exact ⟨m, hlast ▸ hm, List.mem_cons_of_mem _ hmem, hy⟩

/-- Claim C8: per-receipt results have mutually exclusive outcomes:
an error result carries the filename and an error and no amount fields;
a success result carries `candidate_amounts` and `selected_amount` and
no error, with `selected_amount` the maximum candidate when the list is
non-empty and Python `None` when it is empty. -/
theorem C8_receipt_result_shape (filename : Option String) (fetch : ReceiptFetch) :
    (build_receipt filename fetch).filename = filename
    ∧ ((build_receipt filename fetch).error.isSome ↔
        ((build_receipt filename fetch).candidate_amounts = none
          ∧ (build_receipt filename fetch).selected_amount = none
          ∧ (build_receipt filename fetch).ocr_text_preview = none))
    ∧ ((build_receipt filename fetch).error = none →
        ∃ amounts, (build_receipt filename fetch).candidate_amounts = some amounts
          ∧ (amounts = [] → (build_receipt filename fetch).selected_amount = some none)
          ∧ ∀ a ∈ amounts,
              ∃ m, (build_receipt filename fetch).selected_amount = some (some m)
                ∧ m ∈ amounts ∧ a ≤ m) := by
  cases fetch with
  | downloadError st rsn =>
    exact ⟨rfl, by simp [build_receipt], fun h => by simp [build_receipt] at h⟩
  | ocrError msg =>
    exact ⟨rfl, by simp [build_receipt], fun h => by simp [build_receipt] at h⟩
  | ocrText text =>
    refine ⟨rfl, by simp [build_receipt], fun _ => ?_⟩
    refine ⟨_parse_amounts_from_text text, rfl,
      fun he => by simp [build_receipt, he], ?_⟩
    intro a ha
    obtain ⟨m, hm, hmem, hle⟩ := sorted_le_getLast _ (parse_amounts_sorted text) a ha
    exact ⟨m, by simp [build_receipt, hm], hmem, hle⟩

/-- Witness for C8 on a two-amount OCR text: the selected amount is the
maximum of the candidates. -/
theorem C8_witness :
    (build_receipt (some "x") (.ocrText "Rp 300.000 and Rp 20.000")).filename = some "x"
    ∧ ∃ m, (build_receipt (some "x") (.ocrText "Rp 300.000 and Rp 20.000")).selected_amount
        = some (some m) ∧ m ∈ [(20000 : Int), 300000] ∧ (20000 : Int) ≤ m := by
  obtain ⟨h1, _, h3⟩ := C8_receipt_result_shape (some "x") (.ocrText "Rp 300.000 and Rp 20.000")
  obtain ⟨amounts, ha, _, hmax⟩ := h3 rfl
  have hcand : (build_receipt (some "x")
      (.ocrText "Rp 300.000 and Rp 20.000")).candidate_amounts = some [(20000 : Int), 300000] := by
    decide
  have hamounts : amounts = [(20000 : Int), 300000] := Option.some.inj (ha.symm.trans hcand)
  subst hamounts
  obtain ⟨m, hm, hmem, hle⟩ := hmax 20000 (by decide)
  exact ⟨h1, m, hm, hmem, hle⟩

/-! # C10: form-PDF candidate selection -/

theorem insertDescStable_length (f : AttachmentMeta → Int) (a : AttachmentMeta) :
    ∀ l, (insertDescStable f a l).length = l.length + 1
  | [] => rfl
  | b :: bs => by
    unfold insertDescStable
    split_ifs
    · rfl
    · simp [insertDescStable_length f a bs]

theorem sortDescStable_eq_nil (f : AttachmentMeta → Int) :
    ∀ l, sortDescStable f l = [] → l = []
  | [], _ => rfl
  | x :: xs, h => by
    have : (sortDescStable f (x :: xs)).length = (sortDescStable f xs).length + 1 :=
      insertDescStable_length f x (sortDescStable f xs)
    rw [h] at this
    simp at this

theorem sortDescStable_head (f : AttachmentMeta → Int) :
    ∀ (l : List AttachmentMeta) (a : AttachmentMeta) (rest : List AttachmentMeta),
      sortDescStable f l = a :: rest →
      (∀ b ∈ l, f b ≤ f a)
      ∧ ∃ i, l.get? i = some a ∧ ∀ j b, j < i → l.get? j = some b → f b < f a
  | [], a, rest, h => by simp [sortDescStable] at h
  | x :: xs, a, rest, h => by
    have hfold : sortDescStable f (x :: xs) = insertDescStable f x (sortDescStable f xs) := rfl
    cases hxs : sortDescStable f xs with
    | nil =>
      have hnil : xs = [] := sortDescStable_eq_nil f xs hxs
      subst hnil
      rw [hfold, hxs] at h
      simp only [insertDescStable] at h
      injection h with h1 h2
      refine ⟨fun b hb => le_of_eq (congrArg f ((by simpa using hb : b = x).trans h1)),
        0, by simp [h1], fun j b hj _ => by omega⟩
    | cons hh tt =>
      rw [hfold, hxs] at h
      obtain ⟨hmax, i0, hget0, hstrict0⟩ := sortDescStable_head f xs hh tt hxs
      unfold insertDescStable at h
      split_ifs at h with hcmp
      · -- new element x goes first
        have hax : a = x := (List.cons.injEq _ _ _ _).mp h |>.1.symm
        subst hax
        refine ⟨?_, 0, rfl, by omega⟩
        intro b hb
        rcases List.mem_cons.mp hb with rfl | hb'
        · omega
        · have := hmax b hb'
          omega
      · -- head of the sorted tail stays first
        have hah : a = hh := (List.cons.injEq _ _ _ _).mp h |>.1.symm
        subst hah
        refine ⟨?_, i0 + 1, by simpa using hget0, ?_⟩
        · intro b hb
          rcases List.mem_cons.mp hb with rfl | hb'
          · omega
          · exact hmax b hb'
        · intro j b hj hb
          cases j with
          | zero =>
            have hbx : x = b := by simpa using hb
            subst hbx
            omega
          | succ j' =>
            exact hstrict0 j' b (by omega) (by simpa using hb)

/-- Claim C10: form-PDF candidate selection filters to PDF-looking
attachments, and returns the highest `score` candidate with ties broken
by original input order; on the specified two-attachment input it
selects `a.pdf` over the penalized `receipt_b.pdf`. -/
theorem C10_form_pdf_selection :
    (∀ (attachments : List AttachmentMeta) (a : AttachmentMeta),
      _select_form_pdf_attachment attachments = some a →
        a ∈ pdfFilter attachments
        ∧ (∀ b ∈ pdfFilter attachments, score b ≤ score a)
        ∧ ∃ i, (pdfFilter attachments).get? i = some a
            ∧ ∀ j b, j < i → (pdfFilter attachments).get? j = some b → score b < score a)
    ∧ _select_form_pdf_attachment
        [⟨some "a.pdf", some "application/pdf"⟩, ⟨some "receipt_b.pdf", some "application/pdf"⟩]
        = some ⟨some "a.pdf", some "application/pdf"⟩ := by
  constructor
  · intro attachments a h
    unfold _select_form_pdf_attachment at h
    cases hs : sortDescStable score (pdfFilter attachments) with
    | nil =>
      simp only [hs] at h
      exact Option.noConfusion h
    | cons hh tt =>
      simp only [hs] at h
      have hha : hh = a := Option.some.inj h
      subst hha
      obtain ⟨hmax, i, hget, hstrict⟩ := sortDescStable_head score _ hh tt hs
      have hmem : hh ∈ pdfFilter attachments := by
        obtain ⟨hlt, hg⟩ := List.get?_eq_some.mp hget
        exact hg ▸ List.get_mem _ _ _
      exact ⟨hmem, hmax, i, hget, hstrict⟩
  · decide

/-- Witness for C10: the concrete selection of the claim discharges the
selection hypothesis of the general statement. -/
theorem C10_witness :
    (⟨some "a.pdf", some "application/pdf"⟩ : AttachmentMeta) ∈ pdfFilter
        [⟨some "a.pdf", some "application/pdf"⟩, ⟨some "receipt_b.pdf", some "application/pdf"⟩]
    ∧ ∀ b ∈ pdfFilter [(⟨some "a.pdf", some "application/pdf"⟩ : AttachmentMeta),
        ⟨some "receipt_b.pdf", some "application/pdf"⟩],
        score b ≤ score ⟨some "a.pdf", some "application/pdf"⟩ := by
  have h := C10_form_pdf_selection.1
      [⟨some "a.pdf", some "application/pdf"⟩, ⟨some "receipt_b.pdf", some "application/pdf"⟩]
      ⟨some "a.pdf", some "application/pdf"⟩ C10_form_pdf_selection.2
  exact ⟨h.1, h.2.1⟩

end Reimbursely
